import Mathlib

/-!
Shallow embedding of `src/app/static/petri.ts` (Petri-Net graph renderer) and
proofs about its choice-index derivation, highlight logic, tick clamping,
tooltip formatting, HTML escaping and load-time behaviour.

JavaScript conventions are modelled explicitly:
  * a possibly-`undefined`/`null` string is `Option String`;
  * JS string truthiness (`""`, `null`, `undefined` are falsy) is `jsTruthy`;
  * the `a || b` string fallback is `jsOrS`;
  * numeric `a || b` (used for `d.x || width / 2`) is `jsOrQ`, with JS numbers
    modelled as `ℚ`.
-/

/-- JS truthiness of a possibly-missing string: `null`/`undefined` and `""` are falsy. -/
def jsTruthy : Option String → Bool
  | none => false
  | some s => s != ""

/-- The JS string fallback `a || b`. -/
def jsOrS (a : Option String) (b : String) : String :=
  match a with
  | none => b
  | some s => if s = "" then b else s

/-- The JS numeric fallback `v || b` (0, `NaN` and `undefined` are falsy; the
falsy numeric cases are collapsed into `none` or `some 0`). -/
def jsOrQ (a : Option ℚ) (b : ℚ) : ℚ :=
  match a with
  | none => b
  | some v => if v = 0 then b else v

/-- The double-quote character, written by code point to keep sources readable. -/
def quoteChar : Char := Char.ofNat 34

/-- The apostrophe character, written by code point to keep sources readable. -/
def aposChar : Char := Char.ofNat 39

/-- `type PetriNode` of petri.ts: `'place' | 'transition'`. -/
inductive NodeKind where
  | place
  | transition
deriving DecidableEq, Repr

/-- `type PetriNode` of petri.ts (lines 4-11). -/
structure PetriNode where
  id : String
  key : String
  label : Option String
  type : NodeKind
  description : Option String
  exclusive_group : Option String
deriving DecidableEq, Repr

/-- An edge endpoint of `type PetriEdge`: `string | { id: string }`. -/
inductive EdgeEndpoint where
  | str (id : String)
  | obj (id : String)
deriving DecidableEq, Repr

/-- The identity of an endpoint, as resolved by
`typeof d.source === 'object' ? d.source.id : d.source` (petri.ts lines 155-156). -/
def EdgeEndpoint.endpointId : EdgeEndpoint → String
  | .str s => s
  | .obj s => s

/-- What a JS template literal `${d.source}` prints for an endpoint: the string
itself for the string form, `"[object Object]"` for the object form. -/
def EdgeEndpoint.templateText : EdgeEndpoint → String
  | .str s => s
  | .obj _ => "[object Object]"

/-- `type PetriEdge` of petri.ts (lines 13-19); `weight?: number` is modelled
as `Option Int` (only its printed form matters here). -/
structure PetriEdge where
  source : EdgeEndpoint
  target : EdgeEndpoint
  source_key : Option String
  target_key : Option String
  weight : Option Int
deriving DecidableEq, Repr

/-- `type ChoiceGroup` of petri.ts (lines 21-29). -/
structure ChoiceGroup where
  id : String
  place_id : Option Int
  place_key : Option String
  place_label : Option String
  transition_ids : List String
  transition_keys : List String
  exclusive_group : Option String
deriving DecidableEq, Repr

/-- `type ChoiceLink` of petri.ts (lines 31-35), the derived pairwise links. -/
structure ChoiceLink where
  group_id : String
  source : String
  target : String
deriving DecidableEq, Repr

/-- The double loop of `render` (petri.ts lines 183-191): for a list of ids it
produces the pairs `(ids[i], ids[j])` for all `i < j`, outer index ascending,
inner index ascending. -/
def pairsAux : List String → List (String × String)
  | [] => []
  | x :: xs => xs.map (fun y => (x, y)) ++ pairsAux xs

/-- The per-group body of the `choiceGroupsData.forEach` at petri.ts lines
179-192: groups with fewer than 2 transition ids are skipped, otherwise one
`ChoiceLink` is pushed per index pair `i < j`. -/
def groupChoiceLinks (g : ChoiceGroup) : List ChoiceLink :=
  if g.transition_ids.length < 2 then []
  else (pairsAux g.transition_ids).map (fun p => ⟨g.id, p.1, p.2⟩)

/-- `choiceLinksData` as accumulated by `render` (petri.ts lines 177-192). -/
def choiceLinksData (groups : List ChoiceGroup) : List ChoiceLink :=
  groups.flatMap groupChoiceLinks

lemma two_mul_pairsAux_length (l : List String) :
    2 * (pairsAux l).length = l.length * (l.length - 1) := by
  induction l with
  | nil => rfl
  | cons x xs ih =>
    simp only [pairsAux, List.length_append, List.length_map, List.length_cons,
      Nat.add_sub_cancel]
    cases hn : xs.length with
    | zero => rw [hn] at ih; omega
    | succ m =>
      rw [hn] at ih
      simp only [Nat.succ_sub_one] at ih
      nlinarith [ih]

lemma pairsAux_length (l : List String) :
    (pairsAux l).length = l.length * (l.length - 1) / 2 := by
  have h : l.length * (l.length - 1) = (pairsAux l).length * 2 := by
    rw [← two_mul_pairsAux_length l]; ring
  rw [h, Nat.mul_div_cancel _ (by norm_num)]

lemma mem_pairsAux (l : List String) (p : String × String) :
    p ∈ pairsAux l ↔
      ∃ i j, i < j ∧ j < l.length ∧ p = (l.getD i "", l.getD j "") := by
  induction l with
  | nil => simp [pairsAux]
  | cons x xs ih =>
    simp only [pairsAux, List.mem_append, List.mem_map, ih]
    constructor
    · rintro (⟨y, hy, rfl⟩ | ⟨i, j, hij, hj, rfl⟩)
      · obtain ⟨j, hj, rfl⟩ := List.mem_iff_getElem.mp hy
        refine ⟨0, j + 1, Nat.succ_pos j, by simpa using Nat.succ_lt_succ hj, ?_⟩
        rw [List.getD_cons_zero, List.getD_cons_succ, List.getD_eq_getElem xs "" hj]
      · exact ⟨i + 1, j + 1, Nat.succ_lt_succ hij, by simpa using Nat.succ_lt_succ hj,
          by simp [List.getD_cons_succ]⟩
    · rintro ⟨i, j, hij, hj, rfl⟩
      match i, j with
      | 0, j + 1 =>
        left
        have hj' : j < xs.length := by simpa using hj
        refine ⟨xs.getD j "", ?_, by simp [List.getD_cons_zero, List.getD_cons_succ]⟩
        rw [List.getD_eq_getElem _ _ hj']
        exact List.getElem_mem hj'
      | i + 1, j + 1 =>
        right
        exact ⟨i, j, Nat.lt_of_succ_lt_succ hij, by simpa using hj,
          by simp [List.getD_cons_succ]⟩

lemma groupChoiceLinks_length (g : ChoiceGroup) :
    (groupChoiceLinks g).length =
      if 2 ≤ g.transition_ids.length then
        g.transition_ids.length * (g.transition_ids.length - 1) / 2
      else 0 := by
  unfold groupChoiceLinks
  rcases Nat.lt_or_ge g.transition_ids.length 2 with h | h
  · simp [h, Nat.not_le.mpr h]
  · simp [Nat.not_lt.mpr h, h, pairsAux_length]

/-- C1: the number of ChoiceLinks emitted by `render` equals the sum over
groups with at least two transition ids of `k*(k-1)/2`; a group emits exactly
the links `⟨g.id, ids[i], ids[j]⟩` for index pairs `i < j`; and groups with
fewer than two transition ids emit no links. -/
theorem choiceLinks_count_and_pairs (groups : List ChoiceGroup) :
    ((choiceLinksData groups).length =
      (groups.map (fun g =>
        if 2 ≤ g.transition_ids.length then
          g.transition_ids.length * (g.transition_ids.length - 1) / 2
        else 0)).sum) ∧
    (∀ g : ChoiceGroup, ∀ l : ChoiceLink,
      l ∈ groupChoiceLinks g ↔
        (2 ≤ g.transition_ids.length ∧
          ∃ i j, i < j ∧ j < g.transition_ids.length ∧
            l = ⟨g.id, g.transition_ids.getD i "", g.transition_ids.getD j ""⟩)) ∧
    (∀ g : ChoiceGroup, g.transition_ids.length < 2 → groupChoiceLinks g = []) := by
  refine ⟨?_, ?_, ?_⟩
  · induction groups with
    | nil => rfl
    | cons g gs ih =>
      have hcons : choiceLinksData (g :: gs) = groupChoiceLinks g ++ choiceLinksData gs := rfl
      rw [hcons, List.length_append, groupChoiceLinks_length, ih, List.map_cons, List.sum_cons]
  · intro g l
    unfold groupChoiceLinks
    rcases Nat.lt_or_ge g.transition_ids.length 2 with h | h
    · simp only [if_pos h]
      simp only [List.not_mem_nil, false_iff, not_and]
      intro h2
      omega
    · simp only [if_neg (Nat.not_lt.mpr h), List.mem_map, mem_pairsAux]
      constructor
      · rintro ⟨⟨a, b⟩, ⟨i, j, hij, hj, hab⟩, rfl⟩
        cases hab
        exact ⟨h, i, j, hij, hj, rfl⟩
      · rintro ⟨-, i, j, hij, hj, rfl⟩
        exact ⟨(g.transition_ids.getD i "", g.transition_ids.getD j ""),
          ⟨i, j, hij, hj, rfl⟩, rfl⟩
  · intro g h
    simp [groupChoiceLinks, h]

/-- One step of the inner `group.transition_ids.forEach` at petri.ts lines
224-229: `if (!transitionChoices.has(id)) transitionChoices.set(id, []);
transitionChoices.get(id)!.push(group)`.  The `Map` is modelled as a partial
function; `none` means the key is absent. -/
def tcInsert (m : String → Option (List ChoiceGroup)) (g : ChoiceGroup) (id : String) :
    String → Option (List ChoiceGroup) :=
  let m' : String → Option (List ChoiceGroup) :=
    if (m id).isSome then m else fun k => if k = id then some [] else m k
  fun k => if k = id then some ((m' id).getD [] ++ [g]) else m' k

/-- The body of the outer `choiceGroupsData.forEach` at petri.ts lines 223-230,
recording one group under each of its transition ids. -/
def tcAddGroup (m : String → Option (List ChoiceGroup)) (g : ChoiceGroup) :
    String → Option (List ChoiceGroup) :=
  g.transition_ids.foldl (fun m id => tcInsert m g id) m

/-- `transitionChoices` as rebuilt by `render` (petri.ts lines 221-230),
starting from `new Map()`. -/
def buildTransitionChoices (groups : List ChoiceGroup) :
    String → Option (List ChoiceGroup) :=
  groups.foldl tcAddGroup (fun _ => none)

/-- The entry the scan produces for key `k`: each group repeated once per
occurrence of `k` in its `transition_ids`, in scan order. -/
def tcEntryFor (groups : List ChoiceGroup) (k : String) : List ChoiceGroup :=
  groups.flatMap (fun g => List.replicate (g.transition_ids.count k) g)


lemma foldl_tcInsert (g : ChoiceGroup) (ids : List String)
    (m : String → Option (List ChoiceGroup)) (k : String) :
    (ids.foldl (fun m id => tcInsert m g id) m) k =
      if m k = none ∧ ids.count k = 0 then none
      else some ((m k).getD [] ++ List.replicate (ids.count k) g) := by
  induction ids generalizing m with
  | nil =>
    simp only [List.foldl_nil, List.count_nil]
    cases h : m k with
    | none => simp [h]
    | some l => simp [h]
  | cons i ids ih =>
    rw [List.foldl_cons, ih]
    by_cases hk : k = i
    · subst hk
      have hmk : tcInsert m g k k = some ((m k).getD [] ++ [g]) := by
        unfold tcInsert
        cases h : m k with
        | none => simp [h]
        | some l => simp [h]
      have hc : (k :: ids).count k = ids.count k + 1 := by
        simp [List.count_cons]
      rw [hmk, hc]
      rw [if_neg (by simp), if_neg (by simp)]
      simp [List.replicate_succ]
    · have hmk : tcInsert m g i k = m k := by
        unfold tcInsert
        by_cases h : (m i).isSome
        · simp [h, hk]
        · simp [h, hk]
      have hc : (i :: ids).count k = ids.count k := by
        simp [List.count_cons, Ne.symm hk]
      rw [hmk, hc]

lemma tcAddGroup_apply (m : String → Option (List ChoiceGroup)) (g : ChoiceGroup) (k : String) :
    tcAddGroup m g k =
      if m k = none ∧ g.transition_ids.count k = 0 then none
      else some ((m k).getD [] ++ List.replicate (g.transition_ids.count k) g) :=
  foldl_tcInsert g g.transition_ids m k

lemma foldl_tcAddGroup (groups : List ChoiceGroup)
    (m : String → Option (List ChoiceGroup)) (k : String) :
    (groups.foldl tcAddGroup m) k =
      if m k = none ∧ tcEntryFor groups k = [] then none
      else some ((m k).getD [] ++ tcEntryFor groups k) := by
  induction groups generalizing m with
  | nil =>
    simp only [List.foldl_nil, tcEntryFor, List.flatMap_nil]
    cases h : m k with
    | none => simp [h]
    | some l => simp [h]
  | cons g gs ih =>
    rw [List.foldl_cons, ih]
    have he : tcEntryFor (g :: gs) k =
        List.replicate (g.transition_ids.count k) g ++ tcEntryFor gs k := by
      simp [tcEntryFor]
    rw [tcAddGroup_apply, he]
    rcases h1 : m k with _ | l <;>
      by_cases h2 : g.transition_ids.count k = 0 <;>
      by_cases h3 : tcEntryFor gs k = [] <;>
      simp [h1, h2, h3, List.append_assoc]

/-- C2 (counterexample): a group with a single transition id is NOT skipped
when `transitionChoices` is built (the `< 2` filter at petri.ts line 180 guards
only the choice-link loop, not the index loop at lines 223-230): the singleton
group does appear in the entry of its referenced transition id. -/
theorem transitionChoices_keeps_small_group :
    (ChoiceGroup.mk "g1" none none none ["t1"] ["k1"] none).transition_ids.length < 2 ∧
    buildTransitionChoices [ChoiceGroup.mk "g1" none none none ["t1"] ["k1"] none] "t1" =
      some [ChoiceGroup.mk "g1" none none none ["t1"] ["k1"] none] := by
  constructor
  · decide
  · decide

/-- C2 (amended): the node-to-groups index contains every scanned group with no
minimum-size filter: the entry for a key `k` consists of every scanned group,
in scan order, repeated once per occurrence of `k` in its `transition_ids`
(and the key is present in the map exactly when some group references it). -/
theorem transitionChoices_entries (groups : List ChoiceGroup) (k : String) :
    buildTransitionChoices groups k =
      if tcEntryFor groups k = [] then none else some (tcEntryFor groups k) := by
  unfold buildTransitionChoices
  rw [foldl_tcAddGroup]
  simp

/-- Concatenation of a list of strings in order (the model of `.join('')`). -/
def concatAll : List String → String
  | [] => ""
  | s :: rest => s ++ concatAll rest

/-- The `switch (char)` inside the `escapeHtml` replace callback (petri.ts
lines 65-76); the `default` branch returns `"&#39;"` (only the apostrophe can
reach it through the regex). -/
def escSwitch (c : Char) : String :=
  if c = '&' then "&amp;"
  else if c = '<' then "&lt;"
  else if c = '>' then "&gt;"
  else if c = quoteChar then "&quot;"
  else "&#39;"

/-- The character class of the regex `/[&<>"']/g` at petri.ts line 64. -/
def escTargets : List Char := ['&', '<', '>', quoteChar, aposChar]

/-- `value.replace(/[&<>"']/g, switch...)`: a left-to-right scan replacing each
matching character through the switch and keeping every other character. -/
def escReplace : List Char → String
  | [] => ""
  | c :: cs => (if c ∈ escTargets then escSwitch c else String.singleton c) ++ escReplace cs

/-- `escapeHtml` of petri.ts lines 62-78; `none` stands for `null`/`undefined`,
and the falsy check `if (!value) return ''` also catches the empty string. -/
def escapeHtml : Option String → String
  | none => ""
  | some s => if s = "" then "" else escReplace s.data

/-- Per-character replacement as the claim words it: `&`, `<`, `>`, `"`, `'`
map to their entities, every other character is kept. -/
def escCharSpec (c : Char) : String :=
  if c = '&' then "&amp;"
  else if c = '<' then "&lt;"
  else if c = '>' then "&gt;"
  else if c = quoteChar then "&quot;"
  else if c = aposChar then "&#39;"
  else String.singleton c

lemma escChar_cases (c : Char) :
    (if c ∈ escTargets then escSwitch c else String.singleton c) = escCharSpec c := by
  by_cases h : c ∈ escTargets
  · rw [if_pos h]
    simp only [escTargets, List.mem_cons, List.mem_singleton, List.not_mem_nil, or_false] at h
    rcases h with rfl | rfl | rfl | rfl | rfl <;> decide
  · rw [if_neg h]
    simp only [escTargets, List.mem_cons, List.mem_singleton, List.not_mem_nil, or_false,
      not_or] at h
    obtain ⟨h1, h2, h3, h4, h5⟩ := h
    simp [escCharSpec, h1, h2, h3, h4, h5]

lemma escReplace_eq_concat (cs : List Char) :
    escReplace cs = concatAll (cs.map escCharSpec) := by
  induction cs with
  | nil => rfl
  | cons c cs ih =>
    simp only [escReplace, List.map_cons, concatAll, escChar_cases, ih]

/-- The module-level lookup state `render` rebuilds (petri.ts lines 52-53,
219-230): `nodeById` and `transitionChoices`, both modelled as partial
functions. -/
structure RenderEnv where
  nodeById : String → Option PetriNode
  transitionChoices : String → Option (List ChoiceGroup)

/-- `node.type === 'place' ? 'Place - world state' : 'Transition - quest or choice'`
(petri.ts line 87). -/
def kindText : NodeKind → String
  | .place => "Place - world state"
  | .transition => "Transition - quest or choice"

/-- One `.map((group) => ...)` body of `showDetails` (petri.ts lines 93-114). -/
def choiceSection (env : RenderEnv) (node : PetriNode) (group : ChoiceGroup) : String :=
  let heading := jsOrS group.place_label
    (jsOrS group.place_key (jsOrS group.exclusive_group "Choice point"))
  let placeLabel := escapeHtml (some (jsOrS (some heading) "Choice point"))
  let exclusivity :=
    if jsTruthy group.exclusive_group then
      "<div class=\"choice-group-note\">Group key: <code>"
        ++ escapeHtml group.exclusive_group ++ "</code></div>"
    else ""
  let alternatives :=
    (group.transition_ids.filter (fun id => id != node.id)).map (fun id =>
      let label := escapeHtml (some (match env.nodeById id with
        | none => id
        | some targetNode => jsOrS (some (jsOrS targetNode.label targetNode.key)) id))
      "<li>" ++ label ++ "</li>")
  let altContent :=
    if alternatives ≠ [] then concatAll alternatives
    else "<li>(No alternative transitions)</li>"
  "\n            <div class=\"choice-group\">\n              <div class=\"choice-group-title\">Choice at "
    ++ placeLabel ++ "</div>\n              " ++ exclusivity
    ++ "\n              <ul>" ++ altContent ++ "</ul>\n            </div>\n          "

/-- The `choiceMarkup` computation of `showDetails` (petri.ts lines 88-123). -/
def choiceMarkupFor (env : RenderEnv) (node : PetriNode) : String :=
  if node.type = NodeKind.transition then
    let groups := (env.transitionChoices node.id).getD []
    if groups ≠ [] then
      let sections := concatAll (groups.map (choiceSection env node))
      "\n        <div class=\"choice-groups\">\n          <strong>Alternative transitions:</strong>\n          "
        ++ sections ++ "\n        </div>\n      "
    else ""
  else ""

/-- The HTML `showDetails` assigns to the details panel (petri.ts lines 80-130). -/
def detailsHtml (env : RenderEnv) (node : PetriNode) : String :=
  let title := escapeHtml (some (jsOrS node.label node.key))
  let key := escapeHtml (some (jsOrS (some node.key) ""))
  let description := escapeHtml (some (jsOrS node.description "No description provided."))
  let typeText := kindText node.type
  let choiceMarkup := choiceMarkupFor env node
  "\n    <h2>" ++ title ++ "</h2>\n    <p class=\"meta\">" ++ typeText
    ++ "<br />Key: <code>" ++ key ++ "</code></p>\n    <p>"
    ++ jsOrS (some description) "No description provided." ++ "</p>\n    "
    ++ choiceMarkup ++ "\n  "

/-- The `peerIds` set built by `highlight` (petri.ts lines 136-144): for every
group indexed under `activeId`, every transition id other than `activeId`
itself is added. -/
def peerIds (tc : String → Option (List ChoiceGroup)) (activeId : String) : Finset String :=
  ((tc activeId).getD []).foldl
    (fun s g => g.transition_ids.foldl
      (fun s id => if id ≠ activeId then insert id s else s) s) ∅

/-- The `activeGroups` set built by `highlight` (petri.ts line 162). -/
def activeGroupIds (tc : String → Option (List ChoiceGroup)) (activeId : String) :
    Finset String :=
  (((tc activeId).getD []).map (fun group => group.id)).toFinset

/-- The observable element state the selection handlers overwrite: the three
`classed` toggles of `highlight` (keyed by the bound datum) and the details
panel markup set by `showDetails`. -/
structure UIState where
  selectedShape : String → Bool
  choicePeerShape : String → Bool
  activeEdge : PetriEdge → Bool
  activeChoiceLink : ChoiceLink → Bool
  details : String

/-- `highlight(activeId)` (petri.ts lines 132-167): every toggle is recomputed
from the data alone; `classed` with a boolean predicate overwrites the previous
class state of every selected element, so the prior state contributes nothing.
The details markup is untouched by `highlight`. -/
def highlightApply (env : RenderEnv) (activeId : String) (st : UIState) : UIState :=
  { selectedShape := fun id => id == activeId
    choicePeerShape := fun id => decide (id ∈ peerIds env.transitionChoices activeId)
    activeEdge := fun d =>
      d.source.endpointId == activeId || d.target.endpointId == activeId
    activeChoiceLink := fun d =>
      decide (d.group_id ∈ activeGroupIds env.transitionChoices activeId)
    details := st.details }

/-- The shared body of the `mouseenter` and `click` handlers (petri.ts lines
294-301): `showDetails(d); highlight(d.id)` — `showDetails` overwrites
`detailsPanel.innerHTML`, then `highlight` recomputes every mark. -/
def selectNode (env : RenderEnv) (node : PetriNode) (st : UIState) : UIState :=
  highlightApply env node.id { st with details := detailsHtml env node }

/-- The union, over the groups indexed under a node, of their transition ids
(the spec's `∪ over g in nodeToGroups[n] of g.transitionIds`). -/
def choiceUnion (gs : List ChoiceGroup) : Finset String :=
  gs.foldr (fun g acc => g.transition_ids.toFinset ∪ acc) ∅

lemma foldl_insert_ids (a : String) (ids : List String) (s : Finset String) :
    ids.foldl (fun s id => if id ≠ a then insert id s else s) s
      = (ids.toFinset \ {a}) ∪ s := by
  induction ids generalizing s with
  | nil => simp
  | cons i ids ih =>
    rw [List.foldl_cons, ih]
    by_cases hx : i = a
    · rw [if_neg (by simp [hx])]
      subst hx
      ext x
      simp only [List.toFinset_cons, Finset.mem_union, Finset.mem_sdiff, Finset.mem_insert,
        List.mem_toFinset, Finset.mem_singleton]
      tauto
    · rw [if_pos hx]
      ext x
      simp only [List.toFinset_cons, Finset.mem_union, Finset.mem_sdiff, Finset.mem_insert,
        List.mem_toFinset, Finset.mem_singleton]
      by_cases hxi : x = i
      · subst hxi
        simp [hx]
      · simp only [hxi, false_or]

lemma foldl_peer_groups (a : String) (gs : List ChoiceGroup) (s : Finset String) :
    gs.foldl (fun s g => g.transition_ids.foldl
        (fun s id => if id ≠ a then insert id s else s) s) s
      = (choiceUnion gs \ {a}) ∪ s := by
  induction gs generalizing s with
  | nil => simp [choiceUnion]
  | cons g gs ih =>
    rw [List.foldl_cons, ih, foldl_insert_ids]
    have hu : choiceUnion (g :: gs) = g.transition_ids.toFinset ∪ choiceUnion gs := rfl
    rw [hu]
    ext x
    simp only [Finset.mem_union, Finset.mem_sdiff, Finset.mem_singleton]
    tauto

/-- C3: the peers computed by `highlight` are exactly the union of the
transition ids of the groups indexed under the selected node, minus the node
itself; in particular the selected node is never its own peer. -/
theorem highlight_peers_spec (tc : String → Option (List ChoiceGroup)) (n : String) :
    peerIds tc n = choiceUnion ((tc n).getD []) \ {n} ∧ n ∉ peerIds tc n := by
  have h : peerIds tc n = choiceUnion ((tc n).getD []) \ {n} := by
    unfold peerIds
    rw [foldl_peer_groups]
    simp
  refine ⟨h, ?_⟩
  rw [h]
  simp

/-- C4: selection is idempotent and history-free — applying the select-node
update twice yields the same element marks and details markup as applying it
once, and the result never depends on the previous highlight state (every
`classed` toggle and the panel markup are overwritten). -/
theorem selection_idempotent (env : RenderEnv) (n : PetriNode) (st : UIState) :
    selectNode env n (selectNode env n st) = selectNode env n st ∧
    ∀ st2 : UIState, selectNode env n st = selectNode env n st2 :=
  ⟨rfl, fun _ => rfl⟩

/-- The per-tick x clamp at petri.ts line 317:
`d.x = Math.max(40, Math.min(width - 40, d.x || width / 2))`. -/
def tickClampX (width : ℚ) (x : Option ℚ) : ℚ :=
  max 40 (min (width - 40) (jsOrQ x (width / 2)))

/-- The per-tick y clamp at petri.ts line 318:
`d.y = Math.max(40, Math.min(height - 40, d.y || height / 2))`. -/
def tickClampY (height : ℚ) (y : Option ℚ) : ℚ :=
  max 40 (min (height - 40) (jsOrQ y (height / 2)))

/-- `height = Math.max(560, window.innerHeight - 260)` at petri.ts line 195. -/
def renderHeight (innerHeight : ℚ) : ℚ := max 560 (innerHeight - 260)

/-- C5 (counterexample): for a viewport narrower than twice the margin the
clamped x escapes the claimed upper bound: at `width = 0` the clamp returns
`40`, which is not `≤ width - 40`. -/
theorem tick_clamp_narrow_viewport :
    tickClampX 0 (some 1) = 40 ∧ ¬ tickClampX 0 (some 1) ≤ 0 - 40 := by
  constructor <;> norm_num [tickClampX, jsOrQ]

/-- C5 (amended): after every tick each clamped coordinate satisfies
`margin ≤ c ≤ dimension - margin` provided the dimension is at least twice the
margin (`80`); the height `render` computes always qualifies since it is
floored at `560` (and the resize handler's floor of `520` likewise exceeds
`80`), while the width is the raw container width and can be smaller. -/
theorem tick_clamp_in_bounds (width height : ℚ) (x y : Option ℚ)
    (hw : 80 ≤ width) (hh : 80 ≤ height) :
    (40 ≤ tickClampX width x ∧ tickClampX width x ≤ width - 40) ∧
    (40 ≤ tickClampY height y ∧ tickClampY height y ≤ height - 40) ∧
    (∀ innerHeight : ℚ, 80 ≤ renderHeight innerHeight) := by
  refine ⟨⟨le_max_left _ _, ?_⟩, ⟨le_max_left _ _, ?_⟩, fun innerHeight => ?_⟩
  · exact max_le (by linarith) (min_le_left _ _)
  · exact max_le (by linarith) (min_le_left _ _)
  · exact le_trans (by norm_num) (le_max_left 560 (innerHeight - 260))

/-- Witness for `tick_clamp_in_bounds` at a concrete viewport and position. -/
theorem tick_clamp_in_bounds_witness :
    (40 ≤ tickClampX 200 (some 150) ∧ tickClampX 200 (some 150) ≤ 200 - 40) ∧
    (40 ≤ tickClampY 600 (some 150) ∧ tickClampY 600 (some 150) ≤ 600 - 40) ∧
    (∀ innerHeight : ℚ, 80 ≤ renderHeight innerHeight) :=
  tick_clamp_in_bounds 200 600 (some 150) (some 150) (by norm_num) (by norm_num)

/-- The endpoint resolution performed by `d3.forceLink(links).id((d) => d.id)`
when the simulation is constructed (petri.ts lines 309-311).  d3-force is an
external library; per its documented behaviour its link initializer replaces
each endpoint with the node whose id matches and throws
`node not found: <id>` when no node matches.  The throw is modelled as
`Except.error`. -/
def forceLinkResolve (nodes : List PetriNode) (e : PetriEdge) :
    Except String (PetriNode × PetriNode) :=
  match nodes.find? (fun n => n.id == e.source.endpointId) with
  | none => .error ("node not found: " ++ e.source.endpointId)
  | some s =>
    match nodes.find? (fun n => n.id == e.target.endpointId) with
    | none => .error ("node not found: " ++ e.target.endpointId)
    | some t => .ok (s, t)

/-- Resolution of the whole edge list during simulation construction; the
first failing edge aborts the initialization (and hence the whole `render`). -/
def forceLinkInit (nodes : List PetriNode) :
    List PetriEdge → Except String (List (PetriNode × PetriNode))
  | [] => .ok []
  | e :: es =>
    match forceLinkResolve nodes e with
    | .error msg => .error msg
    | .ok r =>
      match forceLinkInit nodes es with
      | .error msg => .error msg
      | .ok rs => .ok (r :: rs)

/-- C6 (code evaluated at the failing input): an edge whose target id is
absent from the node list makes the simulation construction throw
`node not found: missing` instead of being silently omitted, so `render`
aborts rather than painting the remaining elements. -/
theorem dangling_edge_throws :
    forceLinkInit [PetriNode.mk "a" "ka" none NodeKind.place none none]
        [PetriEdge.mk (EdgeEndpoint.str "a") (EdgeEndpoint.str "missing") none none none]
      = Except.error "node not found: missing" := by
  rfl

/-- A node position as read by the tick handlers (`d.x`, `d.y` of the
simulation-owned node objects). -/
structure SimPos where
  x : ℚ
  y : ℚ
deriving DecidableEq, Repr

/-- The per-tick `d` attribute callback for choice links (petri.ts lines
329-336): both endpoints are looked up in `nodeById`; if either lookup misses
the callback returns `null` (nothing is drawn), otherwise a line between the
two current positions. -/
def choiceLinkTickPath (nodeById : String → Option SimPos) (d : ChoiceLink) :
    Option String :=
  match nodeById d.source, nodeById d.target with
  | some sourceNode, some targetNode =>
    some ("M" ++ toString sourceNode.x ++ "," ++ toString sourceNode.y
      ++ " L" ++ toString targetNode.x ++ "," ++ toString targetNode.y)
  | _, _ => none

/-- C7: a ChoiceLink with an endpoint missing from the position index yields
no drawn path (`none`) and no error, while a link with both endpoints present
is drawn between their current positions. -/
theorem choiceLink_tick_path_spec (m : String → Option SimPos) (d : ChoiceLink) :
    ((m d.source = none ∨ m d.target = none) → choiceLinkTickPath m d = none) ∧
    (∀ s t : SimPos, m d.source = some s → m d.target = some t →
      choiceLinkTickPath m d =
        some ("M" ++ toString s.x ++ "," ++ toString s.y
          ++ " L" ++ toString t.x ++ "," ++ toString t.y)) := by
  constructor
  · rintro (h | h) <;>
      rcases hs : m d.source with _ | s <;>
      rcases ht : m d.target with _ | t <;>
      simp_all [choiceLinkTickPath]
  · intro s t hs ht
    simp [choiceLinkTickPath, hs, ht]

/-- Witness for `choiceLink_tick_path_spec`: a missing endpoint produces no
path; two present endpoints produce the connecting line. -/
theorem choiceLink_tick_path_witness :
    choiceLinkTickPath (fun _ => none) (ChoiceLink.mk "g" "a" "b") = none ∧
    choiceLinkTickPath (fun _ => some (SimPos.mk 1 2)) (ChoiceLink.mk "g" "a" "b")
      = some ("M" ++ toString (1 : ℚ) ++ "," ++ toString (2 : ℚ)
          ++ " L" ++ toString (1 : ℚ) ++ "," ++ toString (2 : ℚ)) :=
  ⟨(choiceLink_tick_path_spec (fun _ => none) (ChoiceLink.mk "g" "a" "b")).1 (Or.inl rfl),
   (choiceLink_tick_path_spec (fun _ => some (SimPos.mk 1 2)) (ChoiceLink.mk "g" "a" "b")).2
     (SimPos.mk 1 2) (SimPos.mk 1 2) rfl rfl⟩

/-- The tooltip text attached to each edge (petri.ts lines 240-244).  It is
computed when the `title` elements are created, before the simulation is
constructed, so `d.source`/`d.target` still hold the raw payload endpoint
(string id or embedded object); the template literal prints the object form as
`[object Object]`. -/
def edgeTitle (d : PetriEdge) : String :=
  let fromText := match d.source_key with
    | some k => if k = "" then d.source.templateText else k
    | none => d.source.templateText
  let toText := match d.target_key with
    | some k => if k = "" then d.target.templateText else k
    | none => d.target.templateText
  fromText ++ " -> " ++ toText ++ "\nweight: "
    ++ (match d.weight with | some w => toString w | none => "")

/-- C8 (counterexample): for an edge whose source is given in the embedded
object form and has no `source_key`, the tooltip shows `[object Object]`, not
the source's id. -/
theorem edge_tooltip_object_endpoint :
    edgeTitle (PetriEdge.mk (EdgeEndpoint.obj "a") (EdgeEndpoint.str "b") none none none)
      = "[object Object] -> b\nweight: " ∧
    ("[object Object] -> b\nweight: " : String) ≠ "a -> b\nweight: " := by
  constructor
  · rfl
  · decide

/-- C8 (amended): each edge tooltip is
`"{from} -> {to}\nweight: {weight or empty}"`, where `from` is `source_key`
when truthy and otherwise the raw endpoint's template text — the id when the
endpoint is a string, `[object Object]` when it is an embedded object — and
symmetrically for `to`. -/
theorem edge_tooltip_format (d : PetriEdge) :
    (edgeTitle d =
      (if jsTruthy d.source_key then jsOrS d.source_key "" else d.source.templateText)
      ++ " -> "
      ++ (if jsTruthy d.target_key then jsOrS d.target_key "" else d.target.templateText)
      ++ "\nweight: "
      ++ (match d.weight with | some w => toString w | none => "")) ∧
    (∀ sid : String, (EdgeEndpoint.str sid).templateText = sid) ∧
    (∀ sid : String, (EdgeEndpoint.obj sid).templateText = "[object Object]") := by
  refine ⟨?_, fun _ => rfl, fun _ => rfl⟩
  rcases d with ⟨s, t, sk, tk, w⟩
  rcases sk with _ | k <;> rcases tk with _ | k2
  · rfl
  · by_cases hk2 : k2 = "" <;> simp [edgeTitle, jsTruthy, jsOrS, hk2]
  · by_cases hk : k = "" <;> simp [edgeTitle, jsTruthy, jsOrS, hk]
  · by_cases hk : k = "" <;> by_cases hk2 : k2 = "" <;>
      simp [edgeTitle, jsTruthy, jsOrS, hk, hk2]

/-- The tail of `render` (petri.ts lines 351-356): a non-empty node list
auto-selects the first node (`showDetails(nodes[0]); highlight(nodes[0].id)`),
an empty one replaces the details panel with the no-nodes status message. -/
def renderInit (env : RenderEnv) (nodes : List PetriNode) (st : UIState) : UIState :=
  match nodes with
  | [] =>
    { st with details :=
        "<div class=\"status\">No Petri-Net nodes found. Seed data first.</div>" }
  | n :: _ => selectNode env n st

/-- C9: on load, a non-empty node list auto-selects the first node in load
order (its details shown, its highlight marks applied), and an empty node list
renders the no-nodes status message; both branches are total, so no exception
escapes. -/
theorem render_initial_selection (env : RenderEnv) (st : UIState) :
    ((renderInit env [] st).details
      = "<div class=\"status\">No Petri-Net nodes found. Seed data first.</div>") ∧
    (∀ (n : PetriNode) (rest : List PetriNode),
      (renderInit env (n :: rest) st).details = detailsHtml env n ∧
      (renderInit env (n :: rest) st).selectedShape = (fun id => id == n.id) ∧
      (renderInit env (n :: rest) st).choicePeerShape
        = (fun id => decide (id ∈ peerIds env.transitionChoices n.id))) :=
  ⟨rfl, fun _ _ => ⟨rfl, rfl, rfl⟩⟩

/-- C10: `escapeHtml` maps `null`/`undefined` and the empty string to `""`,
and every other string to its character-wise image under the entity map that
sends `&`, `<`, `>`, `"`, `'` to `&amp;`, `&lt;`, `&gt;`, `&quot;`, `&#39;`
and keeps every other character.  (`showDetails` routes every user-supplied
field of the details markup — title, key, description, group heading,
exclusive-group tag, alternative labels — through this function; see
`detailsHtml` and `choiceSection`.) -/
theorem escapeHtml_char_map :
    escapeHtml none = "" ∧ escapeHtml (some "") = "" ∧
    (∀ s : String, escapeHtml (some s) = concatAll (s.data.map escCharSpec)) ∧
    (∀ c : Char, c ∉ escTargets → escCharSpec c = String.singleton c) := by
  refine ⟨rfl, rfl, ?_, ?_⟩
  · intro s
    have he : escapeHtml (some s) = if s = "" then "" else escReplace s.data := rfl
    rw [he]
    by_cases h : s = ""
    · subst h; rfl
    · rw [if_neg h, escReplace_eq_concat]
  · intro c hc
    simp only [escTargets, List.mem_cons, List.not_mem_nil, or_false, not_or] at hc
    obtain ⟨h1, h2, h3, h4, h5⟩ := hc
    simp [escCharSpec, h1, h2, h3, h4, h5]

/-- Witness for `escapeHtml_char_map` at concrete inputs. -/
theorem escapeHtml_char_map_witness :
    escapeHtml (some "a&b") = concatAll (("a&b").data.map escCharSpec) ∧
    escCharSpec 'x' = String.singleton 'x' :=
  ⟨escapeHtml_char_map.2.2.1 "a&b", escapeHtml_char_map.2.2.2 'x' (by decide)⟩

/-- Witness for `choiceLinks_count_and_pairs` at concrete groups: a 3-way
group yields 3 links, a singleton group yields none. -/
theorem choiceLinks_count_witness :
    (choiceLinksData
        [ChoiceGroup.mk "g1" none none none ["t1", "t2", "t3"] [] none]).length = 3 ∧
    groupChoiceLinks (ChoiceGroup.mk "g0" none none none ["t1"] [] none) = [] := by
  constructor
  · rw [(choiceLinks_count_and_pairs
      [ChoiceGroup.mk "g1" none none none ["t1", "t2", "t3"] [] none]).1]
    rfl
  · exact (choiceLinks_count_and_pairs []).2.2
      (ChoiceGroup.mk "g0" none none none ["t1"] [] none) (by decide)
